import Mathlib

/-!
Verification of the Markdown transformer module
(`packages/lexical-markdown/src/v2/MarkdownTransformers.js`).

The document tree is shallowly embedded as the inductive `LNode`; each
transformer's `replace` / `export` function and each element transformer's
regular expression is translated into an executable Lean definition.  Tree
mutation performed by `replace` functions is represented by the value that
replaces the affected slice of the parent's children list.  Definitions whose
JavaScript source is not part of this module (the line-oriented import driver
and the export driver of the v2 package) are modelled from the specification
and say so in their doc comments.
-/

/-- Character class of JavaScript's regular-expression `\w`: ASCII letters,
digits and underscore. -/
def isWordChar (c : Char) : Bool :=
  ('a' ≤ c && c ≤ 'z') || ('A' ≤ c && c ≤ 'Z') || ('0' ≤ c && c ≤ '9') || c == '_'

/-- Character class of JavaScript's regular-expression `\s`, restricted to its
ASCII members (space, tab, line feed, carriage return, vertical tab, form
feed); the Unicode space characters it also accepts are not modelled. -/
def isSpaceChar (c : Char) : Bool :=
  c == ' ' || c == '\t' || c == '\n' || c == '\r' || c == Char.ofNat 11 || c == Char.ofNat 12

/-- The backtick character (code point 96). -/
def backtickChar : Char := Char.ofNat 96

/-- JavaScript `'x'.repeat(n)` for a space: a string of `n` spaces. -/
def spaces (n : Nat) : String := String.mk (List.replicate n ' ')

/-- JavaScript `Array.prototype.join('\n')`. -/
def joinNL : List String → String
  | [] => ""
  | [s] => s
  | s :: rest => s ++ "\n" ++ joinNL rest

/-- JavaScript `Number(d)` on a string of decimal digits. -/
def numberOfDigits (s : String) : Nat :=
  s.data.foldl (fun acc c => acc * 10 + (c.toNat - 48)) 0

/-- JavaScript `String.prototype.split('\n')`: `"a\n"` splits into
`["a", ""]`. -/
def splitLines : List Char → List (List Char)
  | [] => [[]]
  | '\n' :: rest => [] :: splitLines rest
  | c :: rest =>
      match splitLines rest with
      | l :: ls => (c :: l) :: ls
      | [] => [[c]]

/-- Tag of a list node: `'ul'` or `'ol'` in the source. -/
inductive ListTag where
  | ul
  | ol
deriving DecidableEq

/-- Shallow embedding of the lexical document nodes that the transformers in
this module create or inspect.  A text node carries its content and its
format bitmask; a list node carries its tag and its start value; a list item
carries its indent level. -/
inductive LNode where
  | text (content : String) (format : Nat)
  | paragraph (children : List LNode)
  | heading (level : Nat) (children : List LNode)
  | quote (children : List LNode)
  | code (language : Option String) (content : String)
  | list (tag : ListTag) (start : Nat) (children : List LNode)
  | listitem (indent : Nat) (children : List LNode)
  | link (url : String) (children : List LNode)

/-- Embeds the `$isListNode` runtime type check. -/
def isListNode : LNode → Bool
  | .list _ _ _ => true
  | _ => false

/-- Embeds the `$isListItemNode` runtime type check. -/
def isListItemNode : LNode → Bool
  | .listitem _ _ => true
  | _ => false

/-- Embeds the `$isTextNode` runtime type check. -/
def isTextNode : LNode → Bool
  | .text _ _ => true
  | _ => false

/-- Embeds `TextNode.getFormat()`; only text nodes carry a format. -/
def getFormat : LNode → Nat
  | .text _ f => f
  | _ => 0

mutual

/-- Embeds `node.getTextContent()`: the concatenated text of all descendant
text nodes (code nodes yield their verbatim content).  The block separators
the full editor inserts between sibling element nodes are not modelled; the
claims only evaluate it on inline children and empty elements. -/
def textContent : LNode → String
  | .text s _ => s
  | .code _ content => content
  | .paragraph cs => textContentL cs
  | .heading _ cs => textContentL cs
  | .quote cs => textContentL cs
  | .list _ _ cs => textContentL cs
  | .listitem _ cs => textContentL cs
  | .link _ cs => textContentL cs

/-- Text content of a children list, concatenated in order. -/
def textContentL : List LNode → String
  | [] => ""
  | c :: rest => textContent c ++ textContentL rest

end

/-- Amount of spaces that define indentation level (`LIST_INDENT_SIZE`). -/
def LIST_INDENT_SIZE : Nat := 4

/-- One whitespace character must follow: the `\s` at the end of the element
patterns, which never matches at end of input. -/
def wsAfter : List Char → Bool
  | c :: _ => isSpaceChar c
  | [] => false

/-- Greedy attempt of `#{1,6}` followed by `\s` (the `HEADING` transformer's
`/^(#{1,6})\s/`), longest repetition first; returns the length of the
captured group `match[1]`. -/
def tryHashes : Nat → List Char → Option Nat
  | 0, _ => none
  | n + 1, cs =>
      if ((cs.take (n + 1)).length == n + 1 && (cs.take (n + 1)).all (· == '#'))
          && wsAfter (cs.drop (n + 1)) then
        some (n + 1)
      else tryHashes n cs

/-- Embeds the `HEADING` transformer's `regExp`, `/^(#{1,6})\s/`, applied at
line start; yields the number of matched `#` characters. -/
def headingMatch (line : List Char) : Option Nat :=
  tryHashes 6 line

/-- Greedy attempt of the optional tag group `(\w{1,10})?` followed by `\s`
(the `CODE` transformer's pattern after the backticks), longest repetition
first, the absent-group alternative last; yields the captured tag. -/
def tryTag : Nat → List Char → Option (Option (List Char))
  | 0, cs => if wsAfter cs then some none else none
  | n + 1, cs =>
      if ((cs.take (n + 1)).length == n + 1 && (cs.take (n + 1)).all isWordChar)
          && wsAfter (cs.drop (n + 1)) then
        some (some (cs.take (n + 1)))
      else tryTag n cs

/-- Embeds the `CODE` transformer's `regExp`, `/^```(\w{1,10})?\s/`, applied
at line start; yields the captured language tag (`none` inside `some` when
the optional group did not participate). -/
def codeMatch (line : List Char) : Option (Option String) :=
  match line with
  | a :: b :: c :: rest =>
      if a == backtickChar && b == backtickChar && c == backtickChar then
        (tryTag 10 rest).map (fun t => t.map String.mk)
      else none
  | _ => none

/-- Whether a line matches the `CODE` transformer's regular expression. -/
def codeFenceMatches (line : List Char) : Bool := (codeMatch line).isSome

/-- Embeds the `QUOTE` transformer's `regExp`, `/^>\s/`; yields the text
after the matched prefix. -/
def quoteMatch (line : List Char) : Option (List Char) :=
  match line with
  | c :: s :: rest => if c == '>' && isSpaceChar s then some rest else none
  | _ => none

/-- Embeds the `UNORDERED_LIST` transformer's `regExp`, `/^(\s*)[-*+]\s/`;
yields the captured leading whitespace (`match[1]`) and the text after the
matched prefix.  The `\s*` run and the bullet characters are disjoint, so the
greedy scan is deterministic. -/
def ulMatch (line : List Char) : Option (List Char × List Char) :=
  let ws := line.takeWhile isSpaceChar
  match line.drop ws.length with
  | b :: s :: rest =>
      if (b == '-' || b == '*' || b == '+') && isSpaceChar s then some (ws, rest) else none
  | _ => none

/-- Embeds the `ORDERED_LIST` transformer's `regExp`, `/^(\s*)(\d{1,})\.\s/`;
yields the captured leading whitespace (`match[1]`), the captured digits
(`match[2]`) and the text after the matched prefix. -/
def olMatch (line : List Char) : Option (List Char × List Char × List Char) :=
  let ws := line.takeWhile isSpaceChar
  let afterWs := line.drop ws.length
  let digits := afterWs.takeWhile Char.isDigit
  if digits.isEmpty then none
  else
    match afterWs.drop digits.length with
    | '.' :: s :: rest => if isSpaceChar s then some (ws, digits, rest) else none
    | _ => none

/-- Start value of the list node `listReplace` creates:
`$createListNode(listTag, listTag === 'ol' ? Number(match[2]) : undefined)`.
An `ol` list takes `Number(match[2])`; a `ul` list is created with the
constructor's default start value 1 (the value is never used by export). -/
def listStartFor (listTag : ListTag) (m2 : String) : Nat :=
  match listTag with
  | .ol => numberOfDigits m2
  | .ul => 1

/-- Embeds `listReplace(listTag)`'s returned `replace` function.  Its inputs
are the previous sibling of the parent block (`parentNode.getPreviousSibling()`),
the collected children, and the captured groups `match[1]` (leading
whitespace) and `match[2]` (digits).  The tree mutation is represented by the
value that replaces the slice `[previousNode, parentNode]` of the parent's
siblings (`[parentNode]` when there is no previous sibling): when the previous
sibling is a list with the same tag the item is appended to it and the parent
is removed, otherwise a fresh list node holding the item replaces the parent.
The item's indent is `Math.floor(match[1].length / LIST_INDENT_SIZE)`; the
source calls `setIndent` only when it is nonzero, and a fresh list item's
default indent is 0, so the item ends up with that indent either way. -/
def listReplace (listTag : ListTag) (previousNode : Option LNode)
    (children : List LNode) (m1 m2 : String) : List LNode :=
  let indent := m1.length / LIST_INDENT_SIZE
  let listItem : LNode := .listitem indent children
  match previousNode with
  | some (.list t s cs) =>
      if t = listTag then [.list t s (cs ++ [listItem])]
      else [.list t s cs, .list listTag (listStartFor listTag m2) [listItem]]
  | some p => [p, .list listTag (listStartFor listTag m2) [listItem]]
  | none => [.list listTag (listStartFor listTag m2) [listItem]]

/-- Marker prefix emitted by `listExport` for one item:
`listNode.getTag() === 'ul' ? '- ' : (listNode.getStart() + index) + '. '`. -/
def markerFor (tag : ListTag) (start : Nat) (index : Nat) : String :=
  match tag with
  | .ul => "- "
  | .ol => toString (start + index) ++ ". "

mutual

/-- Embeds `listExport(listNode, exportChildren, depth)`.  The source is only
ever called with a list node; any other node yields the empty string. -/
def listExportNode (ec : LNode → String) : LNode → Nat → String
  | .list tag start cs, depth => joinNL (listItems ec tag start depth 0 cs)
  | _, _ => ""

/-- The loop body of `listExport`: walks the list node's children carrying
the running `index`; a list item whose single child is itself a list emits
that sublist's export one level deeper and leaves `index` unchanged
(`continue`), any other list item emits an indented marker line and bumps
`index`, and a child that is not a list item is skipped. -/
def listItems (ec : LNode → String) (tag : ListTag) (start : Nat) (depth : Nat) (index : Nat) :
    List LNode → List String
  | [] => []
  | .listitem _ [.list t2 s2 cs2] :: rest =>
      listExportNode ec (.list t2 s2 cs2) (depth + 1) :: listItems ec tag start depth index rest
  | .listitem ind cs :: rest =>
      (spaces (depth * LIST_INDENT_SIZE) ++ markerFor tag start index ++ ec (.listitem ind cs))
        :: listItems ec tag start depth (index + 1) rest
  | _ :: rest => listItems ec tag start depth index rest

end

/-- Embeds `HEADING.export`: `'#'.repeat(level) + ' ' + exportChildren(node)`
for a heading node (whose stored level embeds `Number(node.getTag().slice(1))`),
`null` otherwise. -/
def headingExport (ec : LNode → String) (node : LNode) : Option String :=
  match node with
  | .heading level cs => some (String.mk (List.replicate level '#') ++ " " ++ ec (.heading level cs))
  | _ => none

/-- Embeds `QUOTE.export`: `'> ' + exportChildren(node)` for a quote node,
`null` otherwise. -/
def quoteExport (ec : LNode → String) (node : LNode) : Option String :=
  match node with
  | .quote cs => some ("> " ++ ec (.quote cs))
  | _ => none

/-- Embeds `CODE.export`: the fenced block
`'```' + (language || '') + (textContent ? '\n' + textContent : '') + '\n' + '```'`
for a code node, `null` otherwise. -/
def codeExport (node : LNode) : Option String :=
  match node with
  | .code language content =>
      some ("```" ++ language.getD ""
        ++ (if content ≠ "" then "\n" ++ content else "") ++ "\n" ++ "```")
  | _ => none

/-- Embeds `UNORDERED_LIST.export`:
`$isListNode(node) ? listExport(node, exportChildren, 0) : null`. -/
def unorderedListExport (ec : LNode → String) (node : LNode) : Option String :=
  if isListNode node then some (listExportNode ec node 0) else none

/-- Embeds `ORDERED_LIST.export`:
`$isListNode(node) ? listExport(node, exportChildren, 0) : null`. -/
def orderedListExport (ec : LNode → String) (node : LNode) : Option String :=
  if isListNode node then some (listExportNode ec node 0) else none

/-- Embeds `LINK.export`, with `exportFormat` (the engine's format exporter)
passed in as a function: a link node exports as `[textContent](url)`, wrapped
by `exportFormat` applied to the first child exactly when the link has a
single child and that child is a text node; a non-link node yields `null`. -/
def linkExport (exportFormat : LNode → String → String) (node : LNode) : Option String :=
  match node with
  | .link url cs =>
      let linkContent := "[" ++ textContent (.link url cs) ++ "](" ++ url ++ ")"
      match cs with
      | [firstChild] =>
          if isTextNode firstChild then some (exportFormat firstChild linkContent)
          else some linkContent
      | _ => some linkContent
  | _ => none

/-- Embeds `LINK.replace`: the matched text node is replaced by a link node
whose URL is `match[2]` and whose single text child holds `match[1]` with the
replaced node's format (`linkTextNode.setFormat(textNode.getFormat())`).
The returned node is the replacement. -/
def linkReplace (textNode : LNode) (m : List String) : LNode :=
  let linkText := m.getD 1 ""
  let linkUrl := m.getD 2 ""
  let linkTextNode : LNode := .text linkText (getFormat textNode)
  .link linkUrl [linkTextNode]

/-- Modelled from the spec: the inline matcher (Text-Format and Text-Match
Matchers, spec 4.3/4.4) applied to the raw trailing content of a line, missing
from `src/`; restricted to runs containing no delimiters, which per the spec
degrade to plain text — an empty run yields no nodes, any other run a single
unstyled text node.  The claims only feed it delimiter-free runs. -/
def inlineRun (cs : List Char) : List LNode :=
  if cs.isEmpty then [] else [.text (String.mk cs) 0]

/-- Modelled from the spec: the Block Importer appends the matched line's
block at the end of the top-level blocks, so the element transformer's
`replace` acts on the slice made of the last block (the previous sibling) and
the fresh parent; `listReplace`'s result replaces that slice. -/
def applyListReplaceAtEnd (blocks : List LNode) (tag : ListTag)
    (children : List LNode) (m1 m2 : String) : List LNode :=
  blocks.dropLast ++ listReplace tag blocks.getLast? children m1 m2

/-- Whether a line begins with a closing triple backtick fence. -/
def startsWithFence (line : List Char) : Bool :=
  match line with
  | a :: b :: c :: _ => a == backtickChar && b == backtickChar && c == backtickChar
  | _ => false

/-- Modelled from the spec: the Block Importer's per-line step (spec 4.2),
missing from `src/`.  State: the top-level blocks built so far, plus the open
code fence (language and verbatim lines) when one was triggered, which
suppresses all other transformers until its closing fence.  Outside a fence an
empty line terminates the current block context; otherwise the element
transformers are tried in the standard order — code fence, heading, quote,
unordered list, ordered list — and the first match's `replace` runs with the
trailing text as children; with no match the line degrades to a plain
paragraph. -/
def blockLine (st : List LNode × Option (Option String × List String)) (line : List Char) :
    List LNode × Option (Option String × List String) :=
  match st.2 with
  | some (lang, acc) =>
      if startsWithFence line then (st.1 ++ [LNode.code lang (joinNL acc)], none)
      else (st.1, some (lang, acc ++ [String.mk line]))
  | none =>
    if line.isEmpty then st
    else
      match codeMatch line with
      | some lang => (st.1, some (lang, []))
      | none =>
        match headingMatch line with
        | some level => (st.1 ++ [LNode.heading level (inlineRun (line.drop (level + 1)))], none)
        | none =>
          match quoteMatch line with
          | some rest => (st.1 ++ [LNode.quote (inlineRun rest)], none)
          | none =>
            match ulMatch line with
            | some (ws, rest) =>
                (applyListReplaceAtEnd st.1 .ul (inlineRun rest) (String.mk ws) "", none)
            | none =>
              match olMatch line with
              | some (ws, digits, rest) =>
                  (applyListReplaceAtEnd st.1 .ol (inlineRun rest) (String.mk ws)
                    (String.mk digits), none)
              | none => (st.1 ++ [LNode.paragraph (inlineRun line)], none)

/-- Modelled from the spec: `convertFromMarkdownString` (spec 6), missing from
`src/` — the markdown text is split into lines and each line is fed to the
Block Importer; a fence still open at end of input is flushed as a code
block. -/
def convertFromMarkdownString (s : String) : List LNode :=
  let final := (splitLines s.data).foldl blockLine ([], none)
  match final.2 with
  | some (lang, acc) => final.1 ++ [LNode.code lang (joinNL acc)]
  | none => final.1

/-- Modelled from the spec: the Exporter's per-block dispatch (spec 4.6),
missing from `src/` — the element transformers' `export` functions are tried
in the standard order until one returns non-null, with the inline child
exporter restricted to plain text content (the claims export unstyled
children only); an unmatched block degrades to its text content. -/
def exportBlockModel (b : LNode) : String :=
  match codeExport b with
  | some s => s
  | none =>
    match headingExport textContent b with
    | some s => s
    | none =>
      match quoteExport textContent b with
      | some s => s
      | none =>
        match unorderedListExport textContent b with
        | some s => s
        | none =>
          match orderedListExport textContent b with
          | some s => s
          | none => textContent b

/-- Modelled from the spec: `convertToMarkdownString` over an explicit list of
top-level blocks, joined by single newlines (spec 4.6). -/
def exportMarkdownModel (blocks : List LNode) : String :=
  joinNL (blocks.map exportBlockModel)

/-- Whether a children list consists of a single node that is a list — the
condition under which `listExport` emits a nested block instead of a marker
line. -/
def soleChildList : List LNode → Bool
  | [.list _ _ _] => true
  | _ => false

/-- Whether `listExport` emits a marker line for this child: it must be a
list item whose children are not a sole nested list. -/
def emitsMarkerLine : LNode → Bool
  | .listitem _ cs => !soleChildList cs
  | _ => false

mutual

/-- Restatement of the list export algorithm in the claim's words: each list
item in order either contributes its sole-child sublist's export one level
deeper (no marker line), or an indented marker line whose ordered-list number
is the start value plus the count of marker lines already emitted at this
depth; the lines are joined by single newlines.  Stated over the
already-processed prefix instead of `listExport`'s running counter. -/
def listExportSpec (ec : LNode → String) : LNode → Nat → String
  | .list tag start cs, depth => joinNL (specLines ec tag start depth [] cs)
  | _, _ => ""

/-- The lines contributed by the remaining children, given the children
already processed at this depth. -/
def specLines (ec : LNode → String) (tag : ListTag) (start : Nat) (depth : Nat)
    (processed : List LNode) : List LNode → List String
  | [] => []
  | .listitem ind [.list t2 s2 cs2] :: rest =>
      listExportSpec ec (.list t2 s2 cs2) (depth + 1)
        :: specLines ec tag start depth (processed ++ [.listitem ind [.list t2 s2 cs2]]) rest
  | .listitem ind cs :: rest =>
      (spaces (depth * LIST_INDENT_SIZE)
          ++ markerFor tag start (List.countP emitsMarkerLine processed)
          ++ ec (.listitem ind cs))
        :: specLines ec tag start depth (processed ++ [.listitem ind cs]) rest
  | c :: rest => specLines ec tag start depth (processed ++ [c]) rest

end

/-- The shape claimed for the code-fence pattern: the line begins with a
triple backtick followed by an optional language tag of 1 to 10 word
characters, with nothing further required. -/
def fenceShapeClaimed (line : List Char) : Bool :=
  match line with
  | a :: b :: c :: rest =>
      (a == backtickChar && b == backtickChar && c == backtickChar)
        && (List.range 11).any
          (fun k => (rest.take k).length == k && (rest.take k).all isWordChar)
  | _ => false

/-- The amended shape for the code-fence pattern: the line begins with a
triple backtick, an optional language tag of 1 to 10 word characters, and
then a whitespace character. -/
def fenceShapeAmended (line : List Char) : Bool :=
  match line with
  | a :: b :: c :: rest =>
      (a == backtickChar && b == backtickChar && c == backtickChar)
        && (List.range 11).any
          (fun k => ((rest.take k).length == k && (rest.take k).all isWordChar)
            && wsAfter (rest.drop k))
  | _ => false

/-- Whether the previous sibling is a list node of the given kind — the merge
condition of `listReplace`. -/
def isSameKindList (n : Option LNode) (listTag : ListTag) : Bool :=
  match n with
  | some (.list t _ _) => t = listTag
  | _ => false

/-- Appends an item to a list node's children (`previousNode.append(listItem)`);
identity on non-lists. -/
def appendToListNode (n : LNode) (item : LNode) : LNode :=
  match n with
  | .list t s cs => .list t s (cs ++ [item])
  | _ => n

/-- The last list item of the last list node among the produced blocks: the
place where `listReplace` puts the item it creates. -/
def lastListItem (out : List LNode) : Option LNode :=
  match out.getLast? with
  | some (.list _ _ cs) => cs.getLast?
  | _ => none

/-- C1 (counterexample): with a preceding sibling that is a same-kind list
and a captured leading whitespace of four spaces — computed indent 1 — the
`listReplace` of the unordered-list transformer still appends the new item to
that sibling (the result is the single merged list), while the claim requires
a new list node whenever the indent is nonzero. -/
theorem listReplace_merges_despite_indent :
    listReplace .ul (some (.list .ul 1 [])) [] "    " "" = [.list .ul 1 [.listitem 1 []]]
    ∧ "    ".length / LIST_INDENT_SIZE = 1 := ⟨rfl, rfl⟩

/-- C1 (as amended): when a list-marker line's replace runs, the new list
item is appended to the immediately preceding sibling block if and only if
that sibling is a list of the same kind — the computed indent plays no part
in the decision; in every other case (different kind, non-list sibling, or no
sibling) a new list node holding the item is created, with the start value
captured from the digits for ordered lists. -/
theorem listReplace_characterization (tag : ListTag) (prev : Option LNode) (cs : List LNode)
    (m1 m2 : String) :
    listReplace tag prev cs m1 m2 =
      if isSameKindList prev tag then
        prev.toList.map (fun p => appendToListNode p (.listitem (m1.length / LIST_INDENT_SIZE) cs))
      else
        prev.toList
          ++ [.list tag (listStartFor tag m2) [.listitem (m1.length / LIST_INDENT_SIZE) cs]] := by
  cases prev with
  | none => rfl
  | some p => cases p <;> simp [listReplace, isSameKindList, appendToListNode]

/-- C2: importing `"5. a\n6. b\n"` creates a single ordered list whose start
value is the 5 captured from the first matched line's digits, and the
`ORDERED_LIST` transformer's export of that list reproduces the original
starting number 5 as the first item's marker. -/
theorem orderedList_start_roundtrip :
    convertFromMarkdownString "5. a\n6. b\n"
        = [.list .ol 5 [.listitem 0 [.text "a" 0], .listitem 0 [.text "b" 0]]]
    ∧ orderedListExport textContent
        (.list .ol 5 [.listitem 0 [.text "a" 0], .listitem 0 [.text "b" 0]])
        = some "5. a\n6. b" := ⟨rfl, rfl⟩

theorem emitsMarkerLine_false_of_not_listitem (head : LNode)
    (h : ∀ ind cs, head = LNode.listitem ind cs → False) : emitsMarkerLine head = false := by
  cases head <;> first | rfl | exact (h _ _ rfl).elim

theorem soleChildList_false_of_no_single_list (cs : List LNode)
    (h : ∀ t2 s2 cs2, cs = [LNode.list t2 s2 cs2] → False) : soleChildList cs = false := by
  match cs with
  | [] => rfl
  | [x] => cases x <;> first | rfl | exact (h _ _ _ rfl).elim
  | x :: y :: rest => cases x <;> rfl

theorem listItems_cons_marker (ec : LNode → String) (tag : ListTag)
    (start depth index ind : Nat) (cs rest : List LNode) (h : soleChildList cs = false) :
    listItems ec tag start depth index (.listitem ind cs :: rest)
      = (spaces (depth * LIST_INDENT_SIZE) ++ markerFor tag start index ++ ec (.listitem ind cs))
        :: listItems ec tag start depth (index + 1) rest := by
  match cs with
  | [] => rfl
  | [x] => cases x <;> first | rfl | simp [soleChildList] at h
  | x :: y :: r => cases x <;> rfl

theorem specLines_cons_marker (ec : LNode → String) (tag : ListTag)
    (start depth ind : Nat) (processed : List LNode) (cs rest : List LNode)
    (h : soleChildList cs = false) :
    specLines ec tag start depth processed (.listitem ind cs :: rest)
      = (spaces (depth * LIST_INDENT_SIZE)
          ++ markerFor tag start (List.countP emitsMarkerLine processed)
          ++ ec (.listitem ind cs))
        :: specLines ec tag start depth (processed ++ [.listitem ind cs]) rest := by
  match cs with
  | [] => rfl
  | [x] => cases x <;> first | rfl | simp [soleChildList] at h
  | x :: y :: r => cases x <;> rfl

theorem listItems_cons_skip (ec : LNode → String) (tag : ListTag)
    (start depth index : Nat) (head : LNode) (rest : List LNode)
    (h : isListItemNode head = false) :
    listItems ec tag start depth index (head :: rest)
      = listItems ec tag start depth index rest := by
  cases head <;> first | rfl | simp [isListItemNode] at h

theorem specLines_cons_skip (ec : LNode → String) (tag : ListTag)
    (start depth : Nat) (processed : List LNode) (head : LNode) (rest : List LNode)
    (h : isListItemNode head = false) :
    specLines ec tag start depth processed (head :: rest)
      = specLines ec tag start depth (processed ++ [head]) rest := by
  cases head <;> first | rfl | simp [isListItemNode] at h

theorem emitsMarkerLine_true_of_marker (ind : Nat) (cs : List LNode)
    (h : soleChildList cs = false) : emitsMarkerLine (.listitem ind cs) = true := by
  simp [emitsMarkerLine, h]

theorem listItems_eq_specLines (ec : LNode → String) :
    ∀ (tag : ListTag) (start depth index : Nat) (l : List LNode),
      ∀ processed, List.countP emitsMarkerLine processed = index →
        listItems ec tag start depth index l = specLines ec tag start depth processed l := by
  intro tag start depth index l
  refine listItems.induct ec
    (fun node d => listExportNode ec node d = listExportSpec ec node d)
    (fun tag start depth index l =>
      ∀ processed, List.countP emitsMarkerLine processed = index →
        listItems ec tag start depth index l = specLines ec tag start depth processed l)
    ?_ ?_ ?_ ?_ ?_ ?_ tag start depth index l
  · intro t s cs d h2
    exact congrArg joinNL (h2 [] rfl)
  · intro t d h
    cases t <;> first | rfl | exact (h _ _ _ rfl).elim
  · intro tag start depth index processed hp
    rfl
  · intro tag start depth index ind t2 s2 cs2 rest ih1 ih2 processed hp
    show listExportNode ec (.list t2 s2 cs2) (depth + 1) :: listItems ec tag start depth index rest
      = listExportSpec ec (.list t2 s2 cs2) (depth + 1)
        :: specLines ec tag start depth (processed ++ [.listitem ind [.list t2 s2 cs2]]) rest
    rw [ih1]
    rw [ih2 (processed ++ [.listitem ind [.list t2 s2 cs2]])
      (by simp [List.countP_append, List.countP_cons, hp, emitsMarkerLine, soleChildList])]
  · intro tag start depth index ind cs rest h ih2 processed hp
    have hs : soleChildList cs = false := soleChildList_false_of_no_single_list cs h
    rw [listItems_cons_marker ec tag start depth index ind cs rest hs,
        specLines_cons_marker ec tag start depth ind processed cs rest hs, hp]
    rw [ih2 (processed ++ [.listitem ind cs])
      (by simp [List.countP_append, List.countP_cons, hp,
            emitsMarkerLine_true_of_marker ind cs hs])]
  · intro tag start depth index head rest h1 h2 ih2 processed hp
    have hnl : isListItemNode head = false := by
      cases head <;> first | rfl | exact (h2 _ _ rfl).elim
    rw [listItems_cons_skip ec tag start depth index head rest hnl,
        specLines_cons_skip ec tag start depth processed head rest hnl]
    exact ih2 (processed ++ [head])
      (by simp [List.countP_append, List.countP_cons, hp,
            emitsMarkerLine_false_of_not_listitem head h2])

/-- C3: the source's list export agrees, for every list node, every child
exporter and every depth, with the claim's restatement — each list item in
order contributes either its sole-child sublist's export one level deeper
with no marker line, or a `depth * 4`-space-indented marker line (`"- "`
unordered, start value plus the count of marker lines already emitted at
this depth followed by `". "` ordered), the lines joined by single
newlines. -/
theorem listExport_matches_spec (ec : LNode → String) (tag : ListTag) (start : Nat)
    (cs : List LNode) (depth : Nat) :
    listExportNode ec (.list tag start cs) depth = listExportSpec ec (.list tag start cs) depth :=
  congrArg joinNL (listItems_eq_specLines ec tag start depth 0 cs [] rfl)

/-- C4 (counterexample): the line consisting of just three backticks has the
claimed shape — a triple backtick followed by an optional language tag — yet
does not match the code-fence regular expression, whose final `\s` requires a
whitespace character after the optional tag. -/
theorem codeFence_requires_trailing_whitespace :
    fenceShapeClaimed "```".data = true ∧ codeFenceMatches "```".data = false := by decide

theorem isSomeOfMapTag (x : Option (Option (List Char))) :
    (x.map (fun t => t.map String.mk)).isSome = x.isSome := by cases x <;> rfl

theorem tryTag_isSome (n : Nat) (cs : List Char) :
    (tryTag n cs).isSome =
      (List.range (n + 1)).any
        (fun k => ((cs.take k).length == k && (cs.take k).all isWordChar) && wsAfter (cs.drop k)) := by
  induction n with
  | zero => cases hw : wsAfter cs <;> simp [tryTag, hw]
  | succ n ih =>
      rw [tryTag, List.range_succ]
      simp only [List.any_append, List.any_cons, List.any_nil]
      split
      · simp_all
      · simp_all [Bool.or_comm]

/-- C4 (as amended): a line matches the code-fence element transformer's
regular expression exactly when it begins with a triple backtick, an optional
language tag of 1 to 10 word characters, and then a whitespace character. -/
theorem codeFence_match_characterization (line : List Char) :
    codeFenceMatches line = fenceShapeAmended line := by
  match line with
  | [] => rfl
  | [a] => rfl
  | [a, b] => rfl
  | a :: b :: c :: rest =>
      show (codeMatch (a :: b :: c :: rest)).isSome = _
      simp only [codeMatch, fenceShapeAmended]
      by_cases h : (a == backtickChar && b == backtickChar && c == backtickChar) = true
      · simp only [h, if_true, Bool.true_and]
        rw [isSomeOfMapTag, tryTag_isSome 10 rest]
      · simp only [Bool.not_eq_true] at h
        simp [h]

/-- C5: for every link node, `LINK.export` returns the bracketed string
`[textContent](url)`; when the link has exactly one child and that child is a
text node the bracketed string is passed through the format exporter, and in
every other case it is returned with no style wrapping. -/
theorem linkExport_characterization (exportFormat : LNode → String → String)
    (url : String) (cs : List LNode) :
    linkExport exportFormat (.link url cs) =
      some (match cs with
        | [LNode.text s f] =>
            exportFormat (.text s f) ("[" ++ textContent (.link url cs) ++ "](" ++ url ++ ")")
        | _ => "[" ++ textContent (.link url cs) ++ "](" ++ url ++ ")") := by
  match cs with
  | [] => rfl
  | [c] => cases c <;> rfl
  | c :: d :: rest => cases c <;> rfl

/-- C6: `LINK.replace` on a matched text node produces a link node whose URL
is the second capture group and whose single text child holds the first
capture group with exactly the format flags of the replaced text node. -/
theorem linkReplace_copies_format (s : String) (f : Nat) (m0 linkText linkUrl : String) :
    linkReplace (.text s f) [m0, linkText, linkUrl] = .link linkUrl [.text linkText f] := rfl

/-- C7: whatever the sibling context, `listReplace` places a newly created
list item whose indent level is the floor of the captured leading
whitespace's length divided by the indentation policy constant 4. -/
theorem listReplace_item_indent (tag : ListTag) (prev : Option LNode) (cs : List LNode)
    (m1 m2 : String) :
    lastListItem (listReplace tag prev cs m1 m2)
      = some (.listitem (m1.length / LIST_INDENT_SIZE) cs) := by
  cases prev with
  | none => rfl
  | some p =>
      cases p with
      | list t s l =>
          by_cases h : t = tag
          · simp only [listReplace, if_pos h, lastListItem, List.getLast?_singleton]
            simp [List.getLast?_concat]
          · simp only [listReplace, if_neg h]
            rfl
      | text a b => rfl
      | paragraph a => rfl
      | heading a b => rfl
      | quote a => rfl
      | code a b => rfl
      | listitem a b => rfl
      | link a b => rfl

/-- C8: every line beginning with `n` hash characters (1 ≤ n ≤ 6) followed by
a space matches the heading transformer's pattern with capture length `n` —
hence a heading node of level `n` — and exporting a heading node of level `n`
yields `n` hash characters, a space, and the exported children text. -/
theorem heading_match_and_export (n : Nat) (h1 : 1 ≤ n) (h2 : n ≤ 6) (rest : List Char)
    (ec : LNode → String) (cs : List LNode) :
    headingMatch (List.replicate n '#' ++ ' ' :: rest) = some n
    ∧ headingExport ec (.heading n cs)
        = some (String.mk (List.replicate n '#') ++ " " ++ ec (.heading n cs)) := by
  constructor
  · interval_cases n <;>
      simp [headingMatch, tryHashes, wsAfter, isSpaceChar, List.replicate, List.take_succ_cons,
        List.drop_succ_cons, List.all_cons]
  · rfl

/-- Witness for C8 at n = 2 on the line `"## x"`. -/
theorem heading_match_and_export_witness :
    headingMatch ("## x".data) = some 2
    ∧ headingExport (fun _ => "x") (.heading 2 [])
        = some (String.mk (List.replicate 2 '#') ++ " " ++ "x") :=
  heading_match_and_export 2 (by decide) (by decide) "x".data (fun _ => "x") []

/-- C9: the input line `"### "` is accepted, producing an empty heading node
of level 3, and exporting that node yields `"### "` again. -/
theorem empty_heading_roundtrip :
    convertFromMarkdownString "### " = [.heading 3 []]
    ∧ exportMarkdownModel [.heading 3 []] = "### " := ⟨rfl, rfl⟩

/-- C10: the `UNORDERED_LIST` and `ORDERED_LIST` transformers' export
functions agree on every node and every child exporter: both are null on
non-lists and both defer to the same list export, which picks the marker from
the list node's own tag. -/
theorem unordered_ordered_export_agree (ec : LNode → String) (node : LNode) :
    unorderedListExport ec node = orderedListExport ec node := rfl
